import Mathlib

/-!
# Verification of ChunkyProcessor (`git_chunky_processor_V3.py`)

Shallow embedding of the chunk-log parser, the processed-set store and the
replay engine of `src/git_chunky_processor_V3.py` (the V3 revision; V1/V2 are
near-identical earlier revisions of the same script).

Modelling conventions:
* Python strings are Lean `String`s; most character work happens on `List Char`.
* `str.strip()` is modelled over the ASCII whitespace set
  (space, tab, newline, carriage return, vertical tab, form feed).
* Reading a file line by line (`for line in f`) is modelled by splitting the
  text on a newline character; Python keeps the trailing newline in each line
  but immediately strips it, so the two views agree after `strip`.
* Python floats produced by `float(...)` on strings matched by `[\d.]+` are
  modelled as exact rationals (`ℚ`); the program performs no float arithmetic,
  only parsing and printing, so this abstraction is faithful for these claims.
* Exceptions are modelled with `Except PyErr`.
* The JSON library (`json.load` / `json.dump`) is external; its decoded values
  are modelled by the inductive `JVal`, a file's state by `FileContent`
  (absent, undecodable, or a decoded JSON value), and the file system visible
  to the store by a map from absolute paths to `FileContent`.
* The external `git` binary is an oracle (`Env`): the exit status of each
  invocation, and `os.path.exists`, may depend on the full history of calls
  made so far (the event trace).  `os.chdir` is explicit state (`RunSt.cwd`).
* Python's `set` is modelled as a duplicate-free list; only membership is ever
  consulted, so element order is irrelevant to every claim.  Python's
  cross-type numeric equality (`1 == True`) is not modelled; no claim uses it.
-/

namespace ChunkyProcessor

/-- Python exception kinds that the modelled code can raise. -/
inductive PyErr where
  | valueError
  | indexError
  | jsonDecodeError
  | typeError
  deriving DecidableEq, Repr

instance {ε α : Type} [DecidableEq ε] [DecidableEq α] : DecidableEq (Except ε α) := fun a b =>
  match a, b with
  | .error e, .error f =>
    if h : e = f then .isTrue (congrArg Except.error h)
    else .isFalse (fun q => h (Except.error.inj q))
  | .ok x, .ok y =>
    if h : x = y then .isTrue (congrArg Except.ok h)
    else .isFalse (fun q => h (Except.ok.inj q))
  | .error _, .ok _ => .isFalse (fun q => Except.noConfusion q)
  | .ok _, .error _ => .isFalse (fun q => Except.noConfusion q)

/-! ## Character-level helpers (Python string primitives) -/

/-- ASCII whitespace stripped by Python `str.strip()`:
space, `\t`, `\n`, `\r`, vertical tab (11), form feed (12). -/
def isPySpace (c : Char) : Bool :=
  c = ' ' || c = '\t' || c = '\n' || c = '\r' ||
  c = Char.ofNat 11 || c = Char.ofNat 12

/-- `str.strip()` on a character list. -/
def stripList (l : List Char) : List Char :=
  ((l.dropWhile isPySpace).reverse.dropWhile isPySpace).reverse

/-- `str.strip()`. -/
def pyStrip (s : String) : String :=
  String.mk (stripList s.toList)

/-- Value of a digit string, as computed by Python `int(...)`
(leading zeros allowed). -/
def digitsVal (l : List Char) : Nat :=
  l.foldl (fun a c => 10 * a + (c.toNat - 48)) 0

/-- `str.split(sep)` for a one-character separator: split at every occurrence
of `sep`, keeping empty pieces (Python semantics, e.g.
`"-  a".split(' ') == ['-', '', 'a']`). -/
def splitChar (sep : Char) : List Char → List (List Char)
  | [] => [[]]
  | c :: cs =>
    if c = sep then [] :: splitChar sep cs
    else
      match splitChar sep cs with
      | t :: ts => (c :: t) :: ts
      | [] => [[c]]

/-- Match a literal character sequence at the start of the input, returning the
rest on success (building block for the anchored header regex). -/
def lit : List Char → List Char → Option (List Char)
  | [], l => some l
  | _ :: _, [] => none
  | c :: cs, d :: ds => if c = d then lit cs ds else none

/-- Character class `[\d.]` of the size group of the header regex. -/
def isDigDot (c : Char) : Bool := c.isDigit || c = '.'

/-! ## The header regex

`re.match(r'^Chunk #(\d+) \((\d+) files, ([\d.]+)MB\):', line.strip())`.

`re.match` anchors at the start only; trailing characters are ignored.  Each
group is greedy, and since every group is followed by a literal character
outside the group's character class, greedy maximal-run matching with no
backtracking is exactly equivalent to the regex engine's behaviour. -/

/-- The literal `Chunk #` of the header pattern. -/
def chunkLit : List Char := "Chunk #".toList

/-- The literal ` (` of the header pattern. -/
def parenLit : List Char := " (".toList

/-- The literal ` files, ` of the header pattern. -/
def filesLit : List Char := " files, ".toList

/-- The literal `MB):` of the header pattern. -/
def mbLit : List Char := "MB):".toList

/-- A greedy one-or-more group over a character class: the maximal run of
class characters and the rest; fails when the run is empty (`+` needs at least
one character). -/
def grabGroup (p : Char → Bool) (l : List Char) : Option (List Char × List Char) :=
  if l.takeWhile p = [] then none else some (l.takeWhile p, l.dropWhile p)

/-- The anchored header regex: on success returns the three captured groups
(chunk number digits, file count digits, size characters). -/
def matchHeader (l : List Char) : Option (List Char × List Char × List Char) :=
  (lit chunkLit l).bind fun l1 =>
  (grabGroup Char.isDigit l1).bind fun g1 =>
  (lit parenLit g1.2).bind fun l2 =>
  (grabGroup Char.isDigit l2).bind fun g2 =>
  (lit filesLit g2.2).bind fun l3 =>
  (grabGroup isDigDot l3).bind fun g3 =>
  (lit mbLit g3.2).bind fun _ =>
  some (g1.1, g2.1, g3.1)

/-! ## Python `float(...)` on strings drawn from `[\d.]+` -/

/-- A string of digits and dots is a valid Python float literal iff it has at
most one dot and at least one digit (`float("1.")`, `float(".5")`, `float("7")`
succeed; `float(".")`, `float("1.2.3")` raise `ValueError`). -/
def floatOkChars (l : List Char) : Bool :=
  (l.filter (fun c => c = '.')).length ≤ 1 && l.any Char.isDigit

/-- Exact value of a valid decimal string (integer part, optional dot,
fractional part). -/
def decValue (l : List Char) : ℚ :=
  let ip := l.takeWhile (fun c => c ≠ '.')
  match l.dropWhile (fun c => c ≠ '.') with
  | [] => (digitsVal ip : ℚ)
  | _ :: fp => (digitsVal ip : ℚ) + (digitsVal fp : ℚ) / (10 : ℚ) ^ fp.length

/-- Python `float(s)` for `s` drawn from the characters `[\d.]`. -/
def pyFloat (l : List Char) : Except PyErr ℚ :=
  if floatOkChars l then .ok (decValue l) else .error .valueError

/-! ## Chunk records (`parse_chunks`, lines 45-72) -/

/-- A parsed chunk record (the dict built at lines 57-62). -/
structure Chunk where
  number : Nat
  file_count : Nat
  size_mb : ℚ
  files : List String
  deriving DecidableEq, Repr

/-- `line.strip().startswith('- ')`. -/
def startsWithDashSpace : List Char → Bool
  | '-' :: ' ' :: _ => true
  | _ => false

/-- `line.strip().split(' ')[1]` (line 65): Python list indexing raises
`IndexError` when out of bounds. -/
def extractPath (s : List Char) : Except PyErr (List Char) :=
  match (splitChar ' ' s).get? 1 with
  | some p => .ok p
  | none => .error .indexError

/-- One iteration of the `for line in f` loop of `parse_chunks`
(lines 51-66): accumulator is (emitted chunks, currently open chunk). -/
def parseStep (acc : List Chunk × Option Chunk) (line : String) :
    Except PyErr (List Chunk × Option Chunk) :=
  let s := (pyStrip line).toList
  match matchHeader s with
  | some (d1, d2, d3) =>
    match pyFloat d3 with
    | .error e => .error e
    | .ok q =>
      .ok (acc.1 ++ acc.2.toList,
           some { number := digitsVal d1, file_count := digitsVal d2,
                  size_mb := q, files := [] })
  | none =>
    match acc.2 with
    | some c =>
      if startsWithDashSpace s then
        match extractPath s with
        | .error e => .error e
        | .ok p => .ok (acc.1, some { c with files := c.files ++ [String.mk p] })
      else .ok acc
    | none => .ok acc

/-- The line loop of `parse_chunks`. -/
def parseLoop (acc : List Chunk × Option Chunk) :
    List String → Except PyErr (List Chunk × Option Chunk)
  | [] => .ok acc
  | l :: ls =>
    match parseStep acc l with
    | .error e => .error e
    | .ok acc' => parseLoop acc' ls

/-- `parse_chunks` over the file's lines (lines 45-72): run the loop from an
empty accumulator and append the last open chunk, if any. -/
def parse_chunks (lines : List String) : Except PyErr (List Chunk) :=
  match parseLoop ([], none) lines with
  | .error e => .error e
  | .ok (cs, cur) => .ok (cs ++ cur.toList)

/-- Lines of a text, as produced by iterating over an open Python text file:
split on newline.  (Python keeps the `\n` at the end of each line; the parser
strips every line before looking at it, so the two views coincide.) -/
def linesOf (s : String) : List String :=
  (splitChar '\n' s.toList).map String.mk

/-- `parse_chunks` applied to the full text of the log file. -/
def parse_chunks_text (s : String) : Except PyErr (List Chunk) :=
  parse_chunks (linesOf s)

/-! ## JSON model for the processed-set store (lines 116-128)

`json.load` / `json.dump` are external library calls; their decoded values are
modelled by `JVal` and the on-disk state of a path by `FileContent`. -/

/-- An atomic decoded JSON value (the only values that can live inside a
Python `set`, since lists and dicts are unhashable). -/
inductive JAtom where
  | jnull
  | jbool (b : Bool)
  | jint (n : Int)
  | jstr (s : String)
  deriving DecidableEq, Repr

/-- A decoded JSON value.  Arrays and objects are modelled with atomic
elements / string keys — this covers every value the program itself writes
(arrays of integers) and every shape the claims mention; nested containers
(whose elements would be unhashable and make `set(...)` raise) are outside
this model. -/
inductive JVal where
  | atom (a : JAtom)
  | jarr (xs : List JAtom)
  | jobj (keys : List String)
  deriving DecidableEq, Repr

/-- Whether an atom is a Python `int`. -/
def isIntVal : JAtom → Bool
  | .jint _ => true
  | _ => false

/-- Python `set(v)` on a decoded JSON value: iterables yield the set of their
elements (duplicate-free list); non-iterables (`None`, booleans, numbers)
raise `TypeError`.  Iterating a string yields its one-character strings,
iterating a dict yields its keys. -/
def pySet : JVal → Except PyErr (List JAtom)
  | .jarr xs => .ok xs.dedup
  | .atom (.jstr s) => .ok ((s.toList.map (fun c => JAtom.jstr (String.mk [c]))).dedup)
  | .jobj ks => .ok ((ks.map JAtom.jstr).dedup)
  | .atom _ => .error .typeError

/-- On-disk state of one path, as seen through `os.path.exists` + `json.load`:
missing, present but not decodable as JSON, or a decoded JSON value. -/
inductive FileContent where
  | absent
  | invalid
  | json (v : JVal)

/-- `load_processed_chunks` (lines 116-121): empty set when the file does not
exist; otherwise `set(json.load(f))`, which raises when the content is not
JSON (`json.JSONDecodeError`) or the decoded value is not iterable
(`TypeError`). -/
def load_processed_chunks (fs : String → FileContent) (path : String) :
    Except PyErr (List JAtom) :=
  match fs path with
  | .absent => .ok []
  | .invalid => .error .jsonDecodeError
  | .json v => pySet v

/-- `save_processed_chunk` (lines 123-128): re-load the file, add the chunk
number, rewrite the whole file as a JSON array.  (Python's set iteration order
is unspecified; the model appends new elements at the end — only membership is
ever consulted.)  Returns the updated file system. -/
def save_processed_chunk (fs : String → FileContent) (path : String)
    (chunk_number : Nat) : Except PyErr (String → FileContent) :=
  match load_processed_chunks fs path with
  | .error e => .error e
  | .ok s =>
    let s' := if JAtom.jint chunk_number ∈ s then s else s ++ [JAtom.jint chunk_number]
    .ok (fun p => if p = path then .json (.jarr s') else fs p)

/-! ## Path resolution (`open` with a relative path resolves against the
process-wide current working directory) -/

/-- Whether a path is absolute (begins with a slash). -/
def isAbs (p : String) : Bool :=
  match p.toList with
  | '/' :: _ => true
  | _ => false

/-- Resolve a path against the current working directory. -/
def resolve (cwd p : String) : String :=
  if isAbs p then p else cwd ++ "/" ++ p

/-! ## Replay engine (lines 74-166) -/

/-- Observable events of a run: each VCS subprocess invocation, the
per-file missing-file warning, the per-chunk outcome log lines, and each
`save_processed_chunk` call. -/
inductive Ev where
  | skip (n : Nat)
  | stage (f : String)
  | missing (f : String)
  | commit (m : String)
  | push
  | save (n : Nat)
  | failAdd (n : Nat)
  | failCommit (n : Nat)
  | failPush (n : Nat)
  | success (n : Nat)
  deriving DecidableEq, Repr

/-- Oracle for the external world: whether a path exists on disk, and the exit
status of each external `git` invocation, both possibly depending on the full
history of events so far. -/
structure Env where
  pathExists : List Ev → String → Bool
  opOk : List Ev → Ev → Bool

/-- Engine state: process-wide current working directory (`os.chdir` target),
the file system holding the processed-set store, and the event trace. -/
structure RunSt where
  cwd : String
  fs : String → FileContent
  events : List Ev

/-- The `for file in files` loop of `git_add_files` (lines 80-87): a missing
file is logged and skipped; a failing `git add` of an existing file raises
`CalledProcessError`, which the surrounding handler turns into `return False`,
aborting the rest of the loop. -/
def gitAddGo (env : Env) : List String → RunSt → Bool × RunSt
  | [], st => (true, st)
  | f :: rest, st =>
    if env.pathExists st.events f then
      if env.opOk st.events (Ev.stage f) then
        gitAddGo env rest { st with events := st.events ++ [Ev.stage f] }
      else (false, { st with events := st.events ++ [Ev.stage f] })
    else gitAddGo env rest { st with events := st.events ++ [Ev.missing f] }

/-- `git_add_files` (lines 74-93): `os.chdir(repo_path)` (never restored),
then stage each file in order. -/
def git_add_files (env : Env) (files : List String) (repo_path : String)
    (st : RunSt) : Bool × RunSt :=
  gitAddGo env files { st with cwd := repo_path }

/-- The commit message f-string of line 98. -/
def commit_message (chunk_number file_count : Nat) : String :=
  "Chunk #" ++ toString chunk_number ++ " - " ++ toString file_count ++
    " files pushed successfully"

/-- `git_commit_chunk` (lines 95-104): one `git commit -m <message>`
invocation. -/
def git_commit_chunk (env : Env) (chunk_number file_count : Nat)
    (st : RunSt) : Bool × RunSt :=
  let m := commit_message chunk_number file_count
  (env.opOk st.events (Ev.commit m),
   { st with events := st.events ++ [Ev.commit m] })

/-- `git_push` (lines 106-114): one `git push` invocation. -/
def git_push (env : Env) (st : RunSt) : Bool × RunSt :=
  (env.opOk st.events Ev.push, { st with events := st.events ++ [Ev.push] })

/-- The body of the `for chunk in chunks` loop of `process_chunks`
(lines 136-164): skip an already-processed number, otherwise
add → commit → push, abandoning the chunk at the first failure, and record the
number in the store only after all three succeeded.  The store path is
resolved against the cwd current at the moment of the call. -/
def process_one (env : Env) (processed : List JAtom)
    (repo_path processed_chunks_file : String) (c : Chunk) (st : RunSt) :
    Except PyErr RunSt :=
  if JAtom.jint c.number ∈ processed then
    .ok { st with events := st.events ++ [Ev.skip c.number] }
  else
    let r1 := git_add_files env c.files repo_path st
    if r1.1 = false then
      .ok { r1.2 with events := r1.2.events ++ [Ev.failAdd c.number] }
    else
      let r2 := git_commit_chunk env c.number c.file_count r1.2
      if r2.1 = false then
        .ok { r2.2 with events := r2.2.events ++ [Ev.failCommit c.number] }
      else
        let r3 := git_push env r2.2
        if r3.1 = false then
          .ok { r3.2 with events := r3.2.events ++ [Ev.failPush c.number] }
        else
          match save_processed_chunk r3.2.fs
              (resolve r3.2.cwd processed_chunks_file) c.number with
          | .error e => .error e
          | .ok fs' =>
            .ok { r3.2 with
                  fs := fs',
                  events := r3.2.events ++ [Ev.save c.number, Ev.success c.number] }

/-- The chunk loop of `process_chunks`: note that `processed` is the set
loaded once before the loop and is never updated by the loop (only the
on-disk file changes). -/
def process_chunksGo (env : Env) (processed : List JAtom)
    (repo_path processed_chunks_file : String) :
    List Chunk → RunSt → Except PyErr RunSt
  | [], st => .ok st
  | c :: rest, st =>
    match process_one env processed repo_path processed_chunks_file c st with
    | .error e => .error e
    | .ok st' => process_chunksGo env processed repo_path processed_chunks_file rest st'

/-- `process_chunks` (lines 130-166): load the processed set (resolving the
store path against the initial cwd), then run the loop.  An exception from the
load propagates out before any chunk is touched. -/
def process_chunks (env : Env) (chunks : List Chunk)
    (repo_path processed_chunks_file : String) (st : RunSt) :
    Except PyErr RunSt :=
  match load_processed_chunks st.fs (resolve st.cwd processed_chunks_file) with
  | .error e => .error e
  | .ok processed =>
    process_chunksGo env processed repo_path processed_chunks_file chunks st

/-! ## The well-formed input grammar of spec §4.1 / §6

Inputs "built from the grammar" are header lines
`Chunk #<N> (<count> files, <size>MB):` followed by `- <path>` file lines.
A `ChunkSpec` carries the exact digit strings written into the header (the
parsed record's numeric fields are the denotations of those strings). -/

/-- One block of the input grammar: the header's three numeric fields as the
character strings written into the text, and the file paths. -/
structure ChunkSpec where
  numStr : List Char
  cntStr : List Char
  szStr : List Char
  files : List String

/-- Well-formedness of a grammar block: the number and count fields are
non-empty digit strings, the size field is drawn from `[\d.]` and is a valid
decimal (at least one digit, at most one dot), and each path is a non-empty
string without whitespace (the grammar is line-oriented and paths with
embedded whitespace are unsupported, per §4.1). -/
def ValidSpec (s : ChunkSpec) : Prop :=
  s.numStr ≠ [] ∧ (∀ c ∈ s.numStr, c.isDigit = true) ∧
  s.cntStr ≠ [] ∧ (∀ c ∈ s.cntStr, c.isDigit = true) ∧
  (∀ c ∈ s.szStr, isDigDot c = true) ∧ floatOkChars s.szStr = true ∧
  (∀ f ∈ s.files, f.toList ≠ [] ∧ ∀ c ∈ f.toList, isPySpace c = false)

instance (s : ChunkSpec) : Decidable (ValidSpec s) := by
  unfold ValidSpec; infer_instance

/-- The header line of a grammar block. -/
def headerLineChars (num cnt sz : List Char) : List Char :=
  chunkLit ++ (num ++ (parenLit ++ (cnt ++ (filesLit ++ (sz ++ mbLit)))))

/-- A file line of a grammar block: `- <path>`. -/
def fileLineChars (p : List Char) : List Char := '-' :: ' ' :: p

/-- The lines of one grammar block. -/
def renderSpecLines (s : ChunkSpec) : List (List Char) :=
  headerLineChars s.numStr s.cntStr s.szStr ::
    s.files.map (fun f => fileLineChars f.toList)

/-- The full input text of a sequence of grammar blocks: each line followed by
a newline. -/
def renderText (specs : List ChunkSpec) : String :=
  String.mk (((specs.map renderSpecLines).flatten.map (fun l => l ++ ['\n'])).flatten)

/-- The chunk record a grammar block denotes. -/
def specChunk (s : ChunkSpec) : Chunk :=
  { number := digitsVal s.numStr, file_count := digitsVal s.cntStr,
    size_mb := decValue s.szStr, files := s.files }

/-! ## Spec-side comparison definitions -/

/-- Helper for `wsTokens`: accumulate the current (reversed) token while
scanning. -/
def wsTokensAux : List Char → List Char → List (List Char)
  | curr, [] => if curr = [] then [] else [curr.reverse]
  | curr, c :: cs =>
    if isPySpace c then
      if curr = [] then wsTokensAux [] cs else curr.reverse :: wsTokensAux [] cs
    else wsTokensAux (c :: curr) cs

/-- Follows the spec's words (§4.1), for comparison with the code's
extraction: "splitting the trimmed line on runs of whitespace" — the tokens
obtained by splitting on maximal whitespace runs, dropping empty tokens
(Python `str.split()` with no argument). -/
def wsTokens (l : List Char) : List (List Char) := wsTokensAux [] l

/-- Whether a line would make `parse_chunks` raise: the header regex accepts
it but its size group is not a valid float literal. -/
def headerFloatBad (line : String) : Bool :=
  match matchHeader (pyStrip line).toList with
  | some (_, _, d3) => !floatOkChars d3
  | none => false

/-- Whether an event is the already-processed skip log. -/
def isSkipEv : Ev → Bool
  | .skip _ => true
  | _ => false

/-! ## Concrete fixtures for witnesses and counterexamples -/

/-- An external world in which every path exists and every git command
succeeds. -/
def envAllOk : Env := { pathExists := fun _ _ => true, opOk := fun _ _ => true }

/-- An external world in which every path exists but every git command
fails. -/
def envAllFail : Env := { pathExists := fun _ _ => true, opOk := fun _ _ => false }

/-- File system with no files at all. -/
def fsEmpty : String → FileContent := fun _ => .absent

/-- A run's starting state: initial working directory `/w`, empty file
system, empty trace. -/
def st0 : RunSt := { cwd := "/w", fs := fsEmpty, events := [] }

/-- A one-file chunk used by witnesses and counterexamples. -/
def cW : Chunk := { number := 1, file_count := 1, size_mb := 1, files := ["a.txt"] }

/-- The state after `process_one` on `cW` from `st0` when every git command
fails: staging was attempted once and the chunk was marked failed. -/
def stFailW : RunSt :=
  { cwd := "/repo", fs := fsEmpty, events := [Ev.stage "a.txt", Ev.failAdd 1] }

/-- The state after a run that skipped `cW` as already processed. -/
def stSkipW : RunSt := { cwd := "/w", fs := fsEmpty, events := [Ev.skip 1] }

/-- The concrete grammar block of the §8 scenario. -/
def specW : ChunkSpec :=
  { numStr := ['1'], cntStr := ['2'], szStr := ['1', '.', '5'],
    files := ["a.txt", "b.txt"] }

/-! # Helper lemmas -/

theorem lit_self_append (p r : List Char) : lit p (p ++ r) = some r := by
  induction p with
  | nil => rfl
  | cons c cs ih => simp [lit, ih]

theorem lit_nil (l : List Char) : lit [] l = some l := rfl

theorem lit_cons_self (c : Char) (cs ds : List Char) :
    lit (c :: cs) (c :: ds) = lit cs ds := by
  simp [lit]

theorem dropWhile_cons_false {p : Char → Bool} {a : Char} {l : List Char}
    (h : p a = false) : (a :: l).dropWhile p = a :: l := by
  simp [List.dropWhile, h]

theorem takeWhile_append_cons {p : Char → Bool} (l : List Char) (d : Char)
    (hl : ∀ c ∈ l, p c = true) (hd : p d = false) (rs : List Char) :
    (l ++ d :: rs).takeWhile p = l := by
  induction l with
  | nil => simp [List.takeWhile, hd]
  | cons a t ih =>
    have ha : p a = true := hl a (List.mem_cons_self a t)
    simp only [List.cons_append, List.takeWhile_cons, ha, if_true]
    exact congrArg (a :: ·) (ih (fun c hc => hl c (List.mem_cons_of_mem a hc)))

theorem dropWhile_append_cons {p : Char → Bool} (l : List Char) (d : Char)
    (hl : ∀ c ∈ l, p c = true) (hd : p d = false) (rs : List Char) :
    (l ++ d :: rs).dropWhile p = d :: rs := by
  induction l with
  | nil => simp [List.dropWhile, hd]
  | cons a t ih =>
    have ha : p a = true := hl a (List.mem_cons_self a t)
    simp only [List.cons_append, List.dropWhile_cons, ha, if_true]
    exact ih (fun c hc => hl c (List.mem_cons_of_mem a hc))

theorem head?_append_left {α : Type} (l r : List α) (h : l ≠ []) :
    (l ++ r).head? = l.head? := by
  cases l with
  | nil => exact absurd rfl h
  | cons a t => rfl

theorem mem_of_head?_eq {α : Type} {l : List α} {a : α} (h : l.head? = some a) :
    a ∈ l := by
  cases l with
  | nil => cases h
  | cons b t => cases h; exact List.mem_cons_self _ _

theorem stripList_eq_self {l : List Char}
    (h1 : ∀ c, l.head? = some c → isPySpace c = false)
    (h2 : ∀ c, l.reverse.head? = some c → isPySpace c = false) :
    stripList l = l := by
  unfold stripList
  have e1 : l.dropWhile isPySpace = l := by
    cases l with
    | nil => rfl
    | cons a t => exact dropWhile_cons_false (h1 a rfl)
  rw [e1]
  have e2 : l.reverse.dropWhile isPySpace = l.reverse := by
    cases hr : l.reverse with
    | nil => rfl
    | cons b t => exact dropWhile_cons_false (h2 b (by rw [hr]; rfl))
  rw [e2, List.reverse_reverse]

theorem splitChar_ne_nil (sep : Char) (l : List Char) : splitChar sep l ≠ [] := by
  induction l with
  | nil => simp [splitChar]
  | cons c cs ih =>
    by_cases h : c = sep
    · simp [splitChar, h]
    · simp only [splitChar, if_neg h]
      cases hs : splitChar sep cs with
      | nil => exact absurd hs ih
      | cons t ts => simp

theorem splitChar_no_sep (sep : Char) (l : List Char) (h : ∀ c ∈ l, c ≠ sep) :
    splitChar sep l = [l] := by
  induction l with
  | nil => rfl
  | cons c cs ih =>
    have hc : c ≠ sep := h c (List.mem_cons_self c cs)
    have ihh := ih (fun x hx => h x (List.mem_cons_of_mem c hx))
    simp [splitChar, hc, ihh]

theorem splitChar_dash_space (p : List Char) :
    splitChar ' ' ('-' :: ' ' :: p) = ['-'] :: splitChar ' ' p := by
  have h1 : splitChar ' ' (' ' :: p) = [] :: splitChar ' ' p := by
    simp [splitChar]
  simp [splitChar, h1]

theorem splitChar_append_sep (sep : Char) (l r : List Char)
    (h : ∀ c ∈ l, c ≠ sep) :
    splitChar sep (l ++ sep :: r) = l :: splitChar sep r := by
  induction l with
  | nil => simp [splitChar]
  | cons c t ih =>
    have hc : c ≠ sep := h c (List.mem_cons_self c t)
    have ihh := ih (fun x hx => h x (List.mem_cons_of_mem c hx))
    simp only [List.cons_append, splitChar, if_neg hc]
    rw [show splitChar sep (List.append t (sep :: r)) = t :: splitChar sep r from ihh]

theorem splitChar_flatten (ls : List (List Char))
    (h : ∀ l ∈ ls, ∀ c ∈ l, c ≠ '\n') :
    splitChar '\n' ((ls.map (fun l => l ++ ['\n'])).flatten) = ls ++ [[]] := by
  induction ls with
  | nil => rfl
  | cons l ls ih =>
    have hl := h l (List.mem_cons_self l ls)
    have ihh := ih (fun x hx => h x (List.mem_cons_of_mem l hx))
    simp only [List.map_cons, List.flatten_cons, List.append_assoc,
      List.singleton_append]
    rw [splitChar_append_sep _ _ _ hl, ihh]
    rfl

theorem parenLit_cons : parenLit = [' ', '('] := rfl

theorem filesLit_cons : filesLit = [' ', 'f', 'i', 'l', 'e', 's', ',', ' '] := rfl

theorem mbLit_cons : mbLit = ['M', 'B', ')', ':'] := rfl

theorem grabGroup_append (p : Char → Bool) (g : List Char) (d : Char)
    (hg : g ≠ []) (hgp : ∀ c ∈ g, p c = true) (hd : p d = false)
    (rs : List Char) :
    grabGroup p (g ++ d :: rs) = some (g, d :: rs) := by
  unfold grabGroup
  rw [takeWhile_append_cons g d hgp hd, dropWhile_append_cons g d hgp hd,
    if_neg hg]

/-- The header regex recognizes every rendered header line, capturing exactly
the three written groups. -/
theorem matchHeader_render (num cnt sz : List Char)
    (hnum : num ≠ []) (hnumd : ∀ c ∈ num, c.isDigit = true)
    (hcnt : cnt ≠ []) (hcntd : ∀ c ∈ cnt, c.isDigit = true)
    (hsz : sz ≠ []) (hszd : ∀ c ∈ sz, isDigDot c = true) :
    matchHeader (headerLineChars num cnt sz) = some (num, cnt, sz) := by
  simp only [matchHeader, headerLineChars, lit_self_append, Option.some_bind,
    parenLit_cons, filesLit_cons, mbLit_cons, List.cons_append, List.nil_append,
    grabGroup_append Char.isDigit num ' ' hnum hnumd (by decide),
    grabGroup_append Char.isDigit cnt ' ' hcnt hcntd (by decide),
    grabGroup_append isDigDot sz 'M' hsz hszd (by decide),
    lit_cons_self, lit_nil]

/-- The header regex rejects every line starting with a dash. -/
theorem matchHeader_dash (s : List Char) : matchHeader ('-' :: s) = none := by
  have h : lit chunkLit ('-' :: s) = none := rfl
  simp [matchHeader, h]

/-- The header regex rejects the empty line. -/
theorem matchHeader_nil : matchHeader [] = none := rfl

theorem digit_ne_newline {c : Char} (h : c.isDigit = true) : c ≠ '\n' := by
  intro he; subst he; exact absurd h (by decide)

theorem digdot_ne_newline {c : Char} (h : isDigDot c = true) : c ≠ '\n' := by
  intro he; subst he; exact absurd h (by decide)

theorem nonspace_ne_newline {c : Char} (h : isPySpace c = false) : c ≠ '\n' := by
  intro he; subst he; exact absurd h (by decide)

theorem nonspace_ne_space {c : Char} (h : isPySpace c = false) : c ≠ ' ' := by
  intro he; subst he; exact absurd h (by decide)

theorem digit_nonspace {c : Char} (h : c.isDigit = true) : isPySpace c = false := by
  revert h
  unfold isPySpace Char.isDigit
  by_cases h1 : c = ' ' <;> by_cases h2 : c = '\t' <;> by_cases h3 : c = '\n' <;>
    by_cases h4 : c = '\r' <;> by_cases h5 : c = Char.ofNat 11 <;>
    by_cases h6 : c = Char.ofNat 12 <;>
    simp_all

theorem headerLine_reverse_head (num cnt sz : List Char) :
    (headerLineChars num cnt sz).reverse.head? = some ':' := by
  unfold headerLineChars
  simp [List.reverse_append, mbLit_cons, head?_append_left]

/-- The rendered header line survives `strip` unchanged. -/
theorem stripList_header (num cnt sz : List Char) :
    stripList (headerLineChars num cnt sz) = headerLineChars num cnt sz := by
  apply stripList_eq_self
  · intro c hc
    rw [show (headerLineChars num cnt sz).head? = some 'C' from rfl] at hc
    cases hc; decide
  · intro c hc
    rw [headerLine_reverse_head] at hc
    cases hc; decide

/-- A rendered file line (non-empty whitespace-free path) survives `strip`
unchanged. -/
theorem stripList_fileLine (p : List Char) (hp : p ≠ [])
    (hpn : ∀ c ∈ p, isPySpace c = false) :
    stripList (fileLineChars p) = fileLineChars p := by
  apply stripList_eq_self
  · intro c hc
    rw [show (fileLineChars p).head? = some '-' from rfl] at hc
    cases hc; decide
  · intro c hc
    have hrne : p.reverse ≠ [] := by simpa using hp
    rw [show fileLineChars p = '-' :: ' ' :: p from rfl, List.reverse_cons,
      List.reverse_cons,
      head?_append_left _ _ (by simp),
      head?_append_left _ _ hrne] at hc
    have : c ∈ p := List.mem_reverse.mp (mem_of_head?_eq hc)
    exact hpn c this

theorem floatOk_ne_nil {l : List Char} (h : floatOkChars l = true) : l ≠ [] := by
  intro he; subst he; exact absurd h (by decide)

/-- `parse_chunks` on a rendered header line: emit the open chunk and open a
fresh one with the denoted fields. -/
theorem parseStep_header (num cnt sz : List Char) (acc : List Chunk × Option Chunk)
    (hnum : num ≠ []) (hnumd : ∀ c ∈ num, c.isDigit = true)
    (hcnt : cnt ≠ []) (hcntd : ∀ c ∈ cnt, c.isDigit = true)
    (hszd : ∀ c ∈ sz, isDigDot c = true) (hok : floatOkChars sz = true) :
    parseStep acc (String.mk (headerLineChars num cnt sz)) =
      .ok (acc.1 ++ acc.2.toList,
           some { number := digitsVal num, file_count := digitsVal cnt,
                  size_mb := decValue sz, files := [] }) := by
  have hs : (pyStrip (String.mk (headerLineChars num cnt sz))).toList
      = headerLineChars num cnt sz := stripList_header num cnt sz
  simp only [parseStep, hs,
    matchHeader_render num cnt sz hnum hnumd hcnt hcntd (floatOk_ne_nil hok) hszd,
    pyFloat, hok, if_true]

theorem extractPath_dash_space (p : List Char) (h : ∀ c ∈ p, c ≠ ' ') :
    extractPath ('-' :: ' ' :: p) = .ok p := by
  unfold extractPath
  rw [splitChar_dash_space, splitChar_no_sep ' ' p h]
  rfl

/-- `parse_chunks` on a rendered file line while a chunk is open: append the
path. -/
theorem parseStep_file (cs : List Chunk) (c : Chunk) (p : List Char)
    (hp : p ≠ []) (hpn : ∀ ch ∈ p, isPySpace ch = false) :
    parseStep (cs, some c) (String.mk (fileLineChars p)) =
      .ok (cs, some { c with files := c.files ++ [String.mk p] }) := by
  have hs : (pyStrip (String.mk ('-' :: ' ' :: p))).toList = '-' :: ' ' :: p :=
    stripList_fileLine p hp hpn
  have hms : matchHeader ('-' :: ' ' :: p) = none := matchHeader_dash (' ' :: p)
  have hep : extractPath ('-' :: ' ' :: p) = .ok p :=
    extractPath_dash_space p (fun ch hch => nonspace_ne_space (hpn ch hch))
  show parseStep (cs, some c) (String.mk ('-' :: ' ' :: p)) = _
  simp only [parseStep, hs, hms, hep, eq_self_iff_true, if_true]
  rfl

/-- The empty line (produced by the trailing newline of the text) is
ignorable. -/
theorem parseStep_empty (acc : List Chunk × Option Chunk) :
    parseStep acc "" = .ok acc := by
  obtain ⟨cs, cur⟩ := acc
  cases cur <;> rfl

theorem parseLoop_append (acc : List Chunk × Option Chunk) (l1 l2 : List String) :
    parseLoop acc (l1 ++ l2) =
      match parseLoop acc l1 with
      | .error e => .error e
      | .ok acc' => parseLoop acc' l2 := by
  induction l1 generalizing acc with
  | nil => rfl
  | cons x xs ih =>
    show parseLoop acc (x :: (xs ++ l2)) = _
    cases hps : parseStep acc x with
    | error e => simp [parseLoop, hps]
    | ok acc' => simp [parseLoop, hps, ih]

theorem mk_toList (s : String) : String.mk s.toList = s := by
  cases s; rfl

/-- Consecutive file lines accumulate their paths, in order, on the open
chunk. -/
theorem parseLoop_files : ∀ (ps : List String),
    (∀ f ∈ ps, f.toList ≠ [] ∧ ∀ c ∈ f.toList, isPySpace c = false) →
    ∀ (cs : List Chunk) (c : Chunk),
    parseLoop (cs, some c) (ps.map (fun f => String.mk (fileLineChars f.toList))) =
      .ok (cs, some { c with files := c.files ++ ps }) := by
  intro ps
  induction ps with
  | nil =>
    intro _ cs c
    simp [parseLoop]
  | cons f fs ih =>
    intro hps cs c
    obtain ⟨hfne, hfns⟩ := hps f (List.mem_cons_self f fs)
    have step := parseStep_file cs c f.toList hfne hfns
    rw [mk_toList] at step
    simp only [List.map_cons, parseLoop, step]
    rw [ih (fun x hx => hps x (List.mem_cons_of_mem f hx))]
    simp [List.append_assoc]

/-- Running the line loop over rendered blocks from any accumulator: every
block is emitted, in order, after the previously open chunk. -/
theorem parseLoop_blocks : ∀ (specs : List ChunkSpec),
    (∀ s ∈ specs, ValidSpec s) →
    ∀ (cs : List Chunk) (cur : Option Chunk),
    ∃ acc', parseLoop (cs, cur)
        (((specs.map renderSpecLines).flatten).map String.mk) = .ok acc' ∧
      acc'.1 ++ acc'.2.toList = cs ++ cur.toList ++ specs.map specChunk := by
  intro specs
  induction specs with
  | nil =>
    intro _ cs cur
    exact ⟨(cs, cur), rfl, by simp⟩
  | cons s specs ih =>
    intro hv cs cur
    obtain ⟨hnum, hnumd, hcnt, hcntd, hszd, hok, hfiles⟩ :=
      hv s (List.mem_cons_self s specs)
    have hstep := parseStep_header s.numStr s.cntStr s.szStr (cs, cur)
      hnum hnumd hcnt hcntd hszd hok
    obtain ⟨acc', hrun, hacc⟩ := ih (fun x hx => hv x (List.mem_cons_of_mem s hx))
      (cs ++ cur.toList) (some (specChunk s))
    refine ⟨acc', ?_, ?_⟩
    · simp only [List.map_cons, List.flatten_cons, List.map_append,
        renderSpecLines, List.cons_append]
      simp only [parseLoop, hstep]
      rw [parseLoop_append, List.map_map]
      have hfl : ((fun l => String.mk l) ∘ fun (f : String) => fileLineChars f.toList) =
          fun (f : String) => String.mk (fileLineChars f.toList) := rfl
      rw [hfl, parseLoop_files s.files hfiles]
      simpa [specChunk] using hrun
    · rw [hacc]
      simp [List.append_assoc]

/-- No rendered line contains a newline character. -/
theorem renderLines_no_newline (s : ChunkSpec) (hv : ValidSpec s) :
    ∀ l ∈ renderSpecLines s, ∀ c ∈ l, c ≠ '\n' := by
  obtain ⟨hnum, hnumd, hcnt, hcntd, hszd, hok, hfiles⟩ := hv
  intro l hl c hc
  rcases List.mem_cons.mp hl with hhead | htail
  · subst hhead
    unfold headerLineChars at hc
    simp only [List.mem_append, List.mem_cons] at hc
    rcases hc with h | h | h | h | h | h | h
    · exact (by decide : ∀ x ∈ chunkLit, x ≠ '\n') c h
    · exact digit_ne_newline (hnumd c h)
    · exact (by decide : ∀ x ∈ parenLit, x ≠ '\n') c h
    · exact digit_ne_newline (hcntd c h)
    · exact (by decide : ∀ x ∈ filesLit, x ≠ '\n') c h
    · exact digdot_ne_newline (hszd c h)
    · exact (by decide : ∀ x ∈ mbLit, x ≠ '\n') c h
  · obtain ⟨f, hf, hfl⟩ := List.mem_map.mp htail
    subst hfl
    rcases List.mem_cons.mp hc with h | h
    · subst h; decide
    · rcases List.mem_cons.mp h with h2 | h2
      · subst h2; decide
      · exact nonspace_ne_newline ((hfiles f hf).2 c h2)

/-- Round trip of the parser over any well-formed rendered input. -/
theorem parse_render_ok (specs : List ChunkSpec) (hv : ∀ s ∈ specs, ValidSpec s) :
    parse_chunks_text (renderText specs) = .ok (specs.map specChunk) := by
  have hnn : ∀ l ∈ (specs.map renderSpecLines).flatten, ∀ c ∈ l, c ≠ '\n' := by
    intro l hl
    obtain ⟨ls, hls, hl2⟩ := List.mem_flatten.mp hl
    obtain ⟨s, hs, rfl⟩ := List.mem_map.mp hls
    exact renderLines_no_newline s (hv s hs) l hl2
  have hlines : linesOf (renderText specs) =
      ((specs.map renderSpecLines).flatten).map String.mk ++ [""] := by
    have h0 : (renderText specs).toList =
        ((specs.map renderSpecLines).flatten.map (fun l => l ++ ['\n'])).flatten :=
      rfl
    unfold linesOf
    rw [h0, splitChar_flatten _ hnn, List.map_append]
    rfl
  obtain ⟨acc', hrun, hacc⟩ := parseLoop_blocks specs hv [] none
  have hfull : parseLoop ([], none)
      ((((specs.map renderSpecLines).flatten).map String.mk) ++ [""]) =
      .ok acc' := by
    rw [parseLoop_append, hrun]
    show (match parseStep acc' "" with
          | Except.error e => (Except.error e : Except PyErr (List Chunk × Option Chunk))
          | Except.ok acc2 => parseLoop acc2 []) = Except.ok acc'
    rw [parseStep_empty]
    rfl
  unfold parse_chunks_text
  rw [hlines]
  unfold parse_chunks
  rw [hfull]
  show Except.ok (acc'.1 ++ acc'.2.toList) = _
  rw [hacc]
  simp

/-! # Claim theorems -/

/-- C3: for any input text built from the grammar of §4.1 (header lines
`Chunk #<N> (<count> files, <size>MB):` each followed by `- <path>` file
lines), `parse_chunks` returns one record per header, in header order, whose
number, file_count, size_mb and files exactly match (denote) the constructed
input; in particular `"Chunk #1 (2 files, 1.5MB):\n- a.txt\n- b.txt\n"`
parses to the single record number=1, file_count=2, size_mb=1.5,
files=["a.txt","b.txt"]. -/
theorem parse_chunks_roundtrip :
    (∀ specs : List ChunkSpec, (∀ s ∈ specs, ValidSpec s) →
      parse_chunks_text (renderText specs) = .ok (specs.map specChunk)) ∧
    parse_chunks_text "Chunk #1 (2 files, 1.5MB):\n- a.txt\n- b.txt\n" =
      .ok [{ number := 1, file_count := 2, size_mb := 3/2,
             files := ["a.txt", "b.txt"] }] := by
  refine ⟨parse_render_ok, ?_⟩
  have htext : "Chunk #1 (2 files, 1.5MB):\n- a.txt\n- b.txt\n" =
      renderText [specW] := by decide
  have h1 : digitsVal ['1'] = 1 := by decide
  have h2 : digitsVal ['2'] = 2 := by decide
  have h5 : digitsVal ['5'] = 5 := by decide
  have hsz : decValue ['1', '.', '5'] = 3 / 2 := by
    show (digitsVal ['1'] : ℚ) + (digitsVal ['5'] : ℚ) / (10 : ℚ) ^ (['5'].length) = 3 / 2
    rw [h1, h5]
    norm_num
  rw [htext, parse_render_ok [specW] (by decide)]
  simp [specChunk, specW, h1, h2, hsz]

/-- Witness for the general round-trip part of C3 at a concrete spec list. -/
theorem parse_chunks_roundtrip_witness :
    parse_chunks_text (renderText [specW]) = .ok ([specW].map specChunk) :=
  parse_chunks_roundtrip.1 [specW] (by decide)

theorem startsWithDashSpace_shape {s : List Char}
    (h : startsWithDashSpace s = true) : ∃ rest, s = '-' :: ' ' :: rest := by
  unfold startsWithDashSpace at h
  split at h
  · next rest => exact ⟨rest, rfl⟩
  · exact Bool.noConfusion h

theorem extractPath_ok_of_dash {s : List Char}
    (h : startsWithDashSpace s = true) :
    ∃ p, extractPath s = .ok p ∧ (splitChar ' ' s).get? 1 = some p := by
  obtain ⟨rest, rfl⟩ := startsWithDashSpace_shape h
  cases hq : splitChar ' ' rest with
  | nil => exact absurd hq (splitChar_ne_nil ' ' rest)
  | cons t ts =>
    refine ⟨t, ?_, ?_⟩
    · unfold extractPath
      rw [splitChar_dash_space, hq]
      rfl
    · rw [splitChar_dash_space, hq]
      rfl

/-- `parse_chunks` loop body when the line is a recognized header with a
valid size group. -/
theorem parseStep_eq_header (acc : List Chunk × Option Chunk)
    (d1 d2 d3 : List Char) (line : String)
    (hm : matchHeader (pyStrip line).toList = some (d1, d2, d3))
    (hok : floatOkChars d3 = true) :
    parseStep acc line = .ok (acc.1 ++ acc.2.toList,
      some { number := digitsVal d1, file_count := digitsVal d2,
             size_mb := decValue d3, files := [] }) := by
  simp only [parseStep, hm, pyFloat, hok, if_true]

/-- `parse_chunks` loop body on a dash-space line with an open chunk. -/
theorem parseStep_eq_file (cs0 : List Chunk) (c : Chunk) (line : String)
    (p : List Char)
    (hm : matchHeader (pyStrip line).toList = none)
    (hd : startsWithDashSpace (pyStrip line).toList = true)
    (hep : extractPath (pyStrip line).toList = .ok p) :
    parseStep (cs0, some c) line =
      .ok (cs0, some { c with files := c.files ++ [String.mk p] }) := by
  simp only [parseStep, hm, hd, hep, eq_self_iff_true, if_true]

/-- `parse_chunks` loop body on an ignorable line with an open chunk. -/
theorem parseStep_eq_other_open (cs0 : List Chunk) (c : Chunk) (line : String)
    (hm : matchHeader (pyStrip line).toList = none)
    (hd : startsWithDashSpace (pyStrip line).toList = false) :
    parseStep (cs0, some c) line = .ok (cs0, some c) := by
  simp only [parseStep, hm]
  rw [if_neg (fun h => Bool.noConfusion (hd.symm.trans h))]

/-- `parse_chunks` loop body on a non-header line with no open chunk. -/
theorem parseStep_eq_other_closed (cs0 : List Chunk) (line : String)
    (hm : matchHeader (pyStrip line).toList = none) :
    parseStep (cs0, none) line = .ok (cs0, none) := by
  simp only [parseStep, hm]

theorem parseStep_no_error (acc : List Chunk × Option Chunk) (line : String)
    (hb : headerFloatBad line = false) :
    ∃ acc', parseStep acc line = .ok acc' := by
  obtain ⟨cs0, cur0⟩ := acc
  cases hm : matchHeader (pyStrip line).toList with
  | some g =>
    obtain ⟨d1, d2, d3⟩ := g
    have hok : floatOkChars d3 = true := by
      unfold headerFloatBad at hb
      rw [hm] at hb
      simpa using hb
    exact ⟨_, parseStep_eq_header (cs0, cur0) d1 d2 d3 line hm hok⟩
  | none =>
    cases cur0 with
    | none => exact ⟨_, parseStep_eq_other_closed cs0 line hm⟩
    | some c =>
      by_cases hd : startsWithDashSpace (pyStrip line).toList = true
      · obtain ⟨p, hep, _⟩ := extractPath_ok_of_dash hd
        exact ⟨_, parseStep_eq_file cs0 c line p hm hd hep⟩
      · exact ⟨_, parseStep_eq_other_open cs0 c line hm
          (Bool.not_eq_true _ ▸ hd)⟩

theorem parseLoop_no_error : ∀ (lines : List String)
    (acc : List Chunk × Option Chunk),
    (∀ l ∈ lines, headerFloatBad l = false) →
    ∃ acc', parseLoop acc lines = .ok acc' := by
  intro lines
  induction lines with
  | nil => intro acc _; exact ⟨acc, rfl⟩
  | cons x xs ih =>
    intro acc h
    obtain ⟨a1, h1⟩ := parseStep_no_error acc x (h x (List.mem_cons_self x xs))
    obtain ⟨a2, h2⟩ := ih a1 (fun l hl => h l (List.mem_cons_of_mem x hl))
    exact ⟨a2, by simp [parseLoop, h1, h2]⟩

/-- C6 counterexample: the header regex accepts
`"Chunk #1 (2 files, .MB):"` (its size group is `"."`), and the numeric
conversion of `"."` raises `ValueError`, which escapes `parse_chunks` — so
parsing is not exception-free for every input. -/
theorem parse_chunks_raises_on_dot_size :
    parse_chunks_text "Chunk #1 (2 files, .MB):\n" = .error .valueError := by
  decide

/-- C6 (amended): a line that the header regex does not accept is treated as
ignorable text and never raises — an empty record list is the worst outcome;
parsing can raise only for a line the header regex accepts whose size group is
not a valid float literal (no digit, or more than one dot).  Formally: if no
line is header-accepted with an invalid size group, `parse_chunks` returns
normally. -/
theorem parse_chunks_no_structural_error (lines : List String)
    (h : ∀ l ∈ lines, headerFloatBad l = false) :
    ∃ cs, parse_chunks lines = .ok cs := by
  obtain ⟨⟨cs, cur⟩, hrun⟩ := parseLoop_no_error lines ([], none) h
  exact ⟨cs ++ cur.toList, by simp [parse_chunks, hrun]⟩

/-- Witness for the C6 amended theorem at a concrete line list. -/
theorem parse_chunks_no_structural_error_witness :
    ∃ cs, parse_chunks ["hello", "- stray", "Chunk #banana", "Chunk #1 (0 files, 2MB):"]
      = .ok cs :=
  parse_chunks_no_structural_error _ (by decide)

theorem wsTokensAux_all_nonspace : ∀ (p curr : List Char), curr ≠ [] →
    (∀ c ∈ p, isPySpace c = false) → wsTokensAux curr p = [curr.reverse ++ p] := by
  intro p
  induction p with
  | nil =>
    intro curr hc _
    simp [wsTokensAux, hc]
  | cons c cs ih =>
    intro curr hc hn
    have hcn : isPySpace c = false := hn c (List.mem_cons_self c cs)
    simp only [wsTokensAux, hcn, Bool.false_eq_true, if_false]
    rw [ih (c :: curr) (by simp) (fun x hx => hn x (List.mem_cons_of_mem c hx))]
    simp

theorem wsTokens_dash_space (p : List Char) (hp : p ≠ [])
    (hn : ∀ c ∈ p, isPySpace c = false) :
    wsTokens ('-' :: ' ' :: p) = [['-'], p] := by
  have e1 : wsTokens ('-' :: ' ' :: p) = ['-'] :: wsTokensAux [] p := rfl
  rw [e1]
  cases p with
  | nil => exact absurd rfl hp
  | cons c cs =>
    have hcn : isPySpace c = false := hn c (List.mem_cons_self c cs)
    have e2 : wsTokensAux [] (c :: cs) = wsTokensAux [c] cs := by
      simp [wsTokensAux, hcn]
    rw [e2, wsTokensAux_all_nonspace cs [c] (by simp)
      (fun x hx => hn x (List.mem_cons_of_mem c hx))]
    rfl

/-- C7 counterexample: for the file line `"-  a.txt"` (two spaces after the
dash) with an open chunk, the code appends the empty string — the second
single-space-split token — whereas splitting on runs of whitespace would give
`"a.txt"`; so the path appended is not the second whitespace-run-delimited
token for all amounts of whitespace. -/
theorem file_token_counterexample :
    parse_chunks ["Chunk #1 (1 files, 1MB):", "-  a.txt"] =
      .ok [{ number := 1, file_count := 1, size_mb := 1, files := [""] }] ∧
    parse_chunks ["Chunk #1 (1 files, 1MB):", "-  a.txt"] ≠
      .ok [{ number := 1, file_count := 1, size_mb := 1, files := ["a.txt"] }] ∧
    (wsTokens (pyStrip "-  a.txt").toList).get? 1 = some "a.txt".toList := by
  refine ⟨by decide, by decide, by decide⟩

/-- C7 (amended): for every trimmed file line beginning with `- ` while a
chunk is open, the path appended is the second token of splitting the trimmed
line on single space characters (empty tokens kept); this agrees with the
second whitespace-run-delimited token exactly when a single space separates
the dash from a whitespace-free path. -/
theorem file_token_extraction :
    (∀ s : List Char, startsWithDashSpace s = true →
      ∃ p, extractPath s = .ok p ∧ (splitChar ' ' s).get? 1 = some p) ∧
    (∀ p : List Char, p ≠ [] → (∀ c ∈ p, isPySpace c = false) →
      extractPath ('-' :: ' ' :: p) = .ok p ∧
        (wsTokens ('-' :: ' ' :: p)).get? 1 = some p) := by
  constructor
  · intro s hs
    exact extractPath_ok_of_dash hs
  · intro p hp hn
    refine ⟨extractPath_dash_space p (fun c hc => nonspace_ne_space (hn c hc)), ?_⟩
    rw [wsTokens_dash_space p hp hn]
    rfl

/-- Witness for the C7 amended theorem at concrete inputs. -/
theorem file_token_extraction_witness :
    (∃ p, extractPath ('-' :: ' ' :: 'a' :: ' ' :: 'b' :: []) = .ok p ∧
      (splitChar ' ' ('-' :: ' ' :: 'a' :: ' ' :: 'b' :: [])).get? 1 = some p) ∧
    (extractPath ('-' :: ' ' :: 'a' :: '.' :: 't' :: []) =
        .ok ('a' :: '.' :: 't' :: []) ∧
      (wsTokens ('-' :: ' ' :: 'a' :: '.' :: 't' :: [])).get? 1 =
        some ('a' :: '.' :: 't' :: [])) :=
  ⟨file_token_extraction.1 _ (by decide),
   file_token_extraction.2 _ (by decide) (by decide)⟩

/-! ## Replay-engine structural lemmas -/

/-- The staging loop only appends stage/missing events and touches neither
`cwd` nor the file system. -/
theorem gitAddGo_spec (env : Env) : ∀ (files : List String) (st : RunSt),
    ∃ d, (gitAddGo env files st).2 = { st with events := st.events ++ d } ∧
      ∀ e ∈ d, (∃ f, e = Ev.stage f) ∨ ∃ f, e = Ev.missing f := by
  intro files
  induction files with
  | nil =>
    intro st
    exact ⟨[], by simp [gitAddGo], by simp⟩
  | cons f fs ih =>
    intro st
    by_cases hex : env.pathExists st.events f = true
    · by_cases hok : env.opOk st.events (Ev.stage f) = true
      · obtain ⟨d, hd, hde⟩ := ih { st with events := st.events ++ [Ev.stage f] }
        refine ⟨Ev.stage f :: d, ?_, ?_⟩
        · show (gitAddGo env (f :: fs) st).2 = _
          simp only [gitAddGo, hex, hok, if_true]
          rw [hd]
          simp
        · intro e he
          rcases List.mem_cons.mp he with rfl | he2
          · exact Or.inl ⟨f, rfl⟩
          · exact hde e he2
      · have hok' : env.opOk st.events (Ev.stage f) = false := by
          revert hok; cases env.opOk st.events (Ev.stage f) <;> simp
        refine ⟨[Ev.stage f], ?_, ?_⟩
        · show (gitAddGo env (f :: fs) st).2 = _
          simp [gitAddGo, hex, hok']
        · intro e he
          rcases List.mem_cons.mp he with rfl | he2
          · exact Or.inl ⟨f, rfl⟩
          · cases he2
    · have hex' : env.pathExists st.events f = false := by
        revert hex; cases env.pathExists st.events f <;> simp
      obtain ⟨d, hd, hde⟩ := ih { st with events := st.events ++ [Ev.missing f] }
      refine ⟨Ev.missing f :: d, ?_, ?_⟩
      · show (gitAddGo env (f :: fs) st).2 = _
        simp only [gitAddGo, hex', Bool.false_eq_true, if_false]
        rw [hd]
        simp
      · intro e he
        rcases List.mem_cons.mp he with rfl | he2
        · exact Or.inr ⟨f, rfl⟩
        · exact hde e he2

/-- `git_add_files` sets the working directory to the repository path and only
appends stage/missing events; the file system is untouched. -/
theorem git_add_files_spec (env : Env) (files : List String) (rp : String)
    (st : RunSt) :
    ∃ d, (git_add_files env files rp st).2 =
        { st with cwd := rp, events := st.events ++ d } ∧
      ∀ e ∈ d, (∃ f, e = Ev.stage f) ∨ ∃ f, e = Ev.missing f := by
  obtain ⟨d, hd, hde⟩ := gitAddGo_spec env files { st with cwd := rp }
  exact ⟨d, by rw [git_add_files, hd], hde⟩

/-- Exhaustive case analysis of one chunk iteration of `process_chunks`:
skipped, failed at add, failed at commit, failed at push, or fully successful
and saved. -/
theorem process_one_cases (env : Env) (processed : List JAtom) (rp sp : String)
    (c : Chunk) (st st' : RunSt)
    (h : process_one env processed rp sp c st = .ok st') :
    (JAtom.jint c.number ∈ processed ∧
      st' = { st with events := st.events ++ [Ev.skip c.number] }) ∨
    (JAtom.jint c.number ∉ processed ∧
      (((git_add_files env c.files rp st).1 = false ∧
        st' = { (git_add_files env c.files rp st).2 with
                events := (git_add_files env c.files rp st).2.events ++
                  [Ev.failAdd c.number] }) ∨
      ((git_add_files env c.files rp st).1 = true ∧
        (((git_commit_chunk env c.number c.file_count
              (git_add_files env c.files rp st).2).1 = false ∧
          st' = { (git_commit_chunk env c.number c.file_count
                    (git_add_files env c.files rp st).2).2 with
                  events := (git_commit_chunk env c.number c.file_count
                    (git_add_files env c.files rp st).2).2.events ++
                    [Ev.failCommit c.number] }) ∨
        ((git_commit_chunk env c.number c.file_count
              (git_add_files env c.files rp st).2).1 = true ∧
          (((git_push env (git_commit_chunk env c.number c.file_count
                (git_add_files env c.files rp st).2).2).1 = false ∧
            st' = { (git_push env (git_commit_chunk env c.number c.file_count
                      (git_add_files env c.files rp st).2).2).2 with
                    events := (git_push env (git_commit_chunk env c.number
                      c.file_count (git_add_files env c.files rp st).2).2).2.events
                      ++ [Ev.failPush c.number] }) ∨
          ((git_push env (git_commit_chunk env c.number c.file_count
                (git_add_files env c.files rp st).2).2).1 = true ∧
            ∃ fs2, save_processed_chunk
                (git_push env (git_commit_chunk env c.number c.file_count
                  (git_add_files env c.files rp st).2).2).2.fs
                (resolve (git_push env (git_commit_chunk env c.number c.file_count
                  (git_add_files env c.files rp st).2).2).2.cwd sp)
                c.number = .ok fs2 ∧
              st' = { (git_push env (git_commit_chunk env c.number c.file_count
                        (git_add_files env c.files rp st).2).2).2 with
                      fs := fs2,
                      events := (git_push env (git_commit_chunk env c.number
                        c.file_count (git_add_files env c.files rp st).2).2).2.events
                        ++ [Ev.save c.number, Ev.success c.number] }))))))) := by
  by_cases hmem : JAtom.jint c.number ∈ processed
  · left
    refine ⟨hmem, ?_⟩
    simp only [process_one, if_pos hmem] at h
    exact (Except.ok.inj h).symm
  · right
    refine ⟨hmem, ?_⟩
    simp only [process_one, if_neg hmem] at h
    by_cases h1 : (git_add_files env c.files rp st).1 = false
    · rw [if_pos h1] at h
      exact Or.inl ⟨h1, (Except.ok.inj h).symm⟩
    · rw [if_neg h1] at h
      have h1t : (git_add_files env c.files rp st).1 = true := by
        revert h1; cases (git_add_files env c.files rp st).1 <;> simp
      refine Or.inr ⟨h1t, ?_⟩
      by_cases h2 : (git_commit_chunk env c.number c.file_count
          (git_add_files env c.files rp st).2).1 = false
      · rw [if_pos h2] at h
        exact Or.inl ⟨h2, (Except.ok.inj h).symm⟩
      · rw [if_neg h2] at h
        have h2t : (git_commit_chunk env c.number c.file_count
            (git_add_files env c.files rp st).2).1 = true := by
          revert h2
          cases (git_commit_chunk env c.number c.file_count
            (git_add_files env c.files rp st).2).1 <;> simp
        refine Or.inr ⟨h2t, ?_⟩
        by_cases h3 : (git_push env (git_commit_chunk env c.number c.file_count
            (git_add_files env c.files rp st).2).2).1 = false
        · rw [if_pos h3] at h
          exact Or.inl ⟨h3, (Except.ok.inj h).symm⟩
        · rw [if_neg h3] at h
          have h3t : (git_push env (git_commit_chunk env c.number c.file_count
              (git_add_files env c.files rp st).2).2).1 = true := by
            revert h3
            cases (git_push env (git_commit_chunk env c.number c.file_count
              (git_add_files env c.files rp st).2).2).1 <;> simp
          refine Or.inr ⟨h3t, ?_⟩
          cases hsv : save_processed_chunk
              (git_push env (git_commit_chunk env c.number c.file_count
                (git_add_files env c.files rp st).2).2).2.fs
              (resolve (git_push env (git_commit_chunk env c.number c.file_count
                (git_add_files env c.files rp st).2).2).2.cwd sp)
              c.number with
          | error e => rw [hsv] at h; cases h
          | ok fs2 =>
            rw [hsv] at h
            exact ⟨fs2, rfl, (Except.ok.inj h).symm⟩

/-- Events produced by the staging loop are neither skip, save nor commit
events. -/
theorem stage_missing_props {d : List Ev}
    (hde : ∀ e ∈ d, (∃ f, e = Ev.stage f) ∨ ∃ f, e = Ev.missing f) :
    d.filter isSkipEv = [] ∧ (∀ n, Ev.save n ∉ d) ∧ (∀ m, Ev.commit m ∉ d) := by
  refine ⟨?_, ?_, ?_⟩
  · rw [List.filter_eq_nil_iff]
    intro e he
    rcases hde e he with ⟨f, rfl⟩ | ⟨f, rfl⟩ <;> simp [isSkipEv]
  · intro n hn
    rcases hde _ hn with ⟨f, hf⟩ | ⟨f, hf⟩ <;> exact Ev.noConfusion hf
  · intro m hm
    rcases hde _ hm with ⟨f, hf⟩ | ⟨f, hf⟩ <;> exact Ev.noConfusion hf

/-- `save_processed_chunk` writes only the given path. -/
theorem save_processed_chunk_spec (fs : String → FileContent) (path : String)
    (n : Nat) (fs2 : String → FileContent)
    (h : save_processed_chunk fs path n = .ok fs2) :
    ∀ q, q ≠ path → fs2 q = fs q := by
  unfold save_processed_chunk at h
  cases hl : load_processed_chunks fs path with
  | error e => rw [hl] at h; cases h
  | ok s =>
    rw [hl] at h
    cases h
    intro q hq
    simp [if_neg hq]

/-- Everything one chunk iteration appends to the trace and does to the
state, in every outcome: the new events, their skip content, when a save
event occurs, that the store only changes on save, the commit message, and
where writes go for non-skipped chunks. -/
theorem process_one_delta (env : Env) (processed : List JAtom) (rp sp : String)
    (c : Chunk) (st st' : RunSt)
    (h : process_one env processed rp sp c st = .ok st') :
    ∃ new, st'.events = st.events ++ new ∧
      new.filter isSkipEv =
        (if JAtom.jint c.number ∈ processed then [Ev.skip c.number] else []) ∧
      (Ev.save c.number ∈ new ↔
        (JAtom.jint c.number ∉ processed ∧
         (git_add_files env c.files rp st).1 = true ∧
         (git_commit_chunk env c.number c.file_count
           (git_add_files env c.files rp st).2).1 = true ∧
         (git_push env (git_commit_chunk env c.number c.file_count
           (git_add_files env c.files rp st).2).2).1 = true)) ∧
      (Ev.save c.number ∉ new → st'.fs = st.fs) ∧
      (∀ m, Ev.commit m ∈ new → m = commit_message c.number c.file_count) ∧
      (JAtom.jint c.number ∉ processed →
        st'.cwd = rp ∧ ∀ q, q ≠ resolve rp sp → st'.fs q = st.fs q) := by
  rcases process_one_cases env processed rp sp c st st' h with
    ⟨hmem, rfl⟩ |
    ⟨hmem, ⟨h1, rfl⟩ | ⟨h1, ⟨h2, rfl⟩ | ⟨h2, ⟨h3, rfl⟩ | ⟨h3, fs2, hsv, rfl⟩⟩⟩⟩
  · -- skipped
    refine ⟨[Ev.skip c.number], rfl, ?_, ?_, ?_, ?_, ?_⟩
    · rw [if_pos hmem]; simp [isSkipEv]
    · constructor
      · intro hin
        exact absurd (List.mem_singleton.mp hin) (fun q => Ev.noConfusion q)
      · rintro ⟨hq, -⟩; exact absurd hmem hq
    · intro _; rfl
    · intro m hm
      exact absurd (List.mem_singleton.mp hm) (fun q => Ev.noConfusion q)
    · intro hq; exact absurd hmem hq
  · -- add failed
    obtain ⟨d, hd, hde⟩ := git_add_files_spec env c.files rp st
    obtain ⟨hdf, hds, hdc⟩ := stage_missing_props hde
    refine ⟨d ++ [Ev.failAdd c.number], ?_, ?_, ?_, ?_, ?_, ?_⟩
    · show (git_add_files env c.files rp st).2.events ++ [Ev.failAdd c.number]
        = st.events ++ (d ++ [Ev.failAdd c.number])
      rw [hd]; simp
    · rw [if_neg hmem, List.filter_append, hdf]
      simp [isSkipEv]
    · constructor
      · intro hin
        rcases List.mem_append.mp hin with hin1 | hin2
        · exact absurd hin1 (hds c.number)
        · exact absurd (List.mem_singleton.mp hin2) (fun q => Ev.noConfusion q)
      · rintro ⟨-, h1t, -⟩
        rw [h1] at h1t; exact Bool.noConfusion h1t
    · intro _
      show (git_add_files env c.files rp st).2.fs = st.fs
      rw [hd]
    · intro m hm
      rcases List.mem_append.mp hm with hm1 | hm2
      · exact absurd hm1 (hdc m)
      · exact absurd (List.mem_singleton.mp hm2) (fun q => Ev.noConfusion q)
    · intro _
      refine ⟨?_, ?_⟩
      · show (git_add_files env c.files rp st).2.cwd = rp
        rw [hd]
      · intro q _
        show (git_add_files env c.files rp st).2.fs q = st.fs q
        rw [hd]
  · -- commit failed
    obtain ⟨d, hd, hde⟩ := git_add_files_spec env c.files rp st
    obtain ⟨hdf, hds, hdc⟩ := stage_missing_props hde
    refine ⟨d ++ [Ev.commit (commit_message c.number c.file_count),
        Ev.failCommit c.number], ?_, ?_, ?_, ?_, ?_, ?_⟩
    · show ((git_add_files env c.files rp st).2.events ++
          [Ev.commit (commit_message c.number c.file_count)]) ++
          [Ev.failCommit c.number]
        = st.events ++ (d ++ [Ev.commit (commit_message c.number c.file_count),
            Ev.failCommit c.number])
      rw [hd]; simp
    · rw [if_neg hmem, List.filter_append, hdf]
      simp [isSkipEv]
    · constructor
      · intro hin
        rcases List.mem_append.mp hin with hin1 | hin2
        · exact absurd hin1 (hds c.number)
        · rcases List.mem_cons.mp hin2 with hq | hq2
          · exact Ev.noConfusion hq
          · exact absurd (List.mem_singleton.mp hq2) (fun q => Ev.noConfusion q)
      · rintro ⟨-, -, h2t, -⟩
        rw [h2] at h2t; exact Bool.noConfusion h2t
    · intro _
      show (git_add_files env c.files rp st).2.fs = st.fs
      rw [hd]
    · intro m hm
      rcases List.mem_append.mp hm with hm1 | hm2
      · exact absurd hm1 (hdc m)
      · rcases List.mem_cons.mp hm2 with hq | hq2
        · exact Ev.commit.inj hq
        · exact absurd (List.mem_singleton.mp hq2) (fun q => Ev.noConfusion q)
    · intro _
      refine ⟨?_, ?_⟩
      · show (git_add_files env c.files rp st).2.cwd = rp
        rw [hd]
      · intro q _
        show (git_add_files env c.files rp st).2.fs q = st.fs q
        rw [hd]
  · -- push failed
    obtain ⟨d, hd, hde⟩ := git_add_files_spec env c.files rp st
    obtain ⟨hdf, hds, hdc⟩ := stage_missing_props hde
    refine ⟨d ++ [Ev.commit (commit_message c.number c.file_count), Ev.push,
        Ev.failPush c.number], ?_, ?_, ?_, ?_, ?_, ?_⟩
    · show (((git_add_files env c.files rp st).2.events ++
          [Ev.commit (commit_message c.number c.file_count)]) ++ [Ev.push]) ++
          [Ev.failPush c.number]
        = st.events ++ (d ++ [Ev.commit (commit_message c.number c.file_count),
            Ev.push, Ev.failPush c.number])
      rw [hd]; simp
    · rw [if_neg hmem, List.filter_append, hdf]
      simp [isSkipEv]
    · constructor
      · intro hin
        rcases List.mem_append.mp hin with hin1 | hin2
        · exact absurd hin1 (hds c.number)
        · rcases List.mem_cons.mp hin2 with hq | hq2
          · exact Ev.noConfusion hq
          · rcases List.mem_cons.mp hq2 with hq3 | hq4
            · exact Ev.noConfusion hq3
            · exact absurd (List.mem_singleton.mp hq4) (fun q => Ev.noConfusion q)
      · rintro ⟨-, -, -, h3t⟩
        rw [h3] at h3t; exact Bool.noConfusion h3t
    · intro _
      show (git_add_files env c.files rp st).2.fs = st.fs
      rw [hd]
    · intro m hm
      rcases List.mem_append.mp hm with hm1 | hm2
      · exact absurd hm1 (hdc m)
      · rcases List.mem_cons.mp hm2 with hq | hq2
        · exact Ev.commit.inj hq
        · rcases List.mem_cons.mp hq2 with hq3 | hq4
          · exact Ev.noConfusion hq3
          · exact absurd (List.mem_singleton.mp hq4) (fun q => Ev.noConfusion q)
    · intro _
      refine ⟨?_, ?_⟩
      · show (git_add_files env c.files rp st).2.cwd = rp
        rw [hd]
      · intro q _
        show (git_add_files env c.files rp st).2.fs q = st.fs q
        rw [hd]
  · -- full success, saved
    obtain ⟨d, hd, hde⟩ := git_add_files_spec env c.files rp st
    obtain ⟨hdf, hds, hdc⟩ := stage_missing_props hde
    have hsave : Ev.save c.number ∈
        d ++ [Ev.commit (commit_message c.number c.file_count), Ev.push,
          Ev.save c.number, Ev.success c.number] := by
      simp
    refine ⟨d ++ [Ev.commit (commit_message c.number c.file_count), Ev.push,
        Ev.save c.number, Ev.success c.number], ?_, ?_, ?_, ?_, ?_, ?_⟩
    · show (((git_add_files env c.files rp st).2.events ++
          [Ev.commit (commit_message c.number c.file_count)]) ++ [Ev.push]) ++
          [Ev.save c.number, Ev.success c.number]
        = st.events ++ (d ++ [Ev.commit (commit_message c.number c.file_count),
            Ev.push, Ev.save c.number, Ev.success c.number])
      rw [hd]; simp
    · rw [if_neg hmem, List.filter_append, hdf]
      simp [isSkipEv]
    · exact ⟨fun _ => ⟨hmem, h1, h2, h3⟩, fun _ => hsave⟩
    · intro hn
      exact absurd hsave hn
    · intro m hm
      rcases List.mem_append.mp hm with hm1 | hm2
      · exact absurd hm1 (hdc m)
      · rcases List.mem_cons.mp hm2 with hq | hq2
        · exact Ev.commit.inj hq
        · rcases List.mem_cons.mp hq2 with hq3 | hq4
          · exact Ev.noConfusion hq3
          · rcases List.mem_cons.mp hq4 with hq5 | hq6
            · exact Ev.noConfusion hq5
            · exact absurd (List.mem_singleton.mp hq6) (fun q => Ev.noConfusion q)
    · intro _
      have hcwd : (git_push env (git_commit_chunk env c.number c.file_count
          (git_add_files env c.files rp st).2).2).2.cwd = rp := by
        show (git_add_files env c.files rp st).2.cwd = rp
        rw [hd]
      refine ⟨hcwd, ?_⟩
      intro q hq
      have hq2 := save_processed_chunk_spec _ _ _ _ hsv q (by rw [hcwd]; exact hq)
      show fs2 q = st.fs q
      rw [hq2]
      show (git_add_files env c.files rp st).2.fs q = st.fs q
      rw [hd]

/-- C1: for every run and every chunk processed by an iteration of the chunk
loop (from any engine state), the chunk's number is recorded in the
processed-set store — a save event is emitted — if and only if the chunk was
not skipped and staging, commit and push all returned success for it in that
iteration; any failure among the three leaves the store unchanged. -/
theorem save_iff_full_success (env : Env) (processed : List JAtom)
    (rp sp : String) (c : Chunk) (st st' : RunSt)
    (h : process_one env processed rp sp c st = .ok st') :
    ∃ new, st'.events = st.events ++ new ∧
      (Ev.save c.number ∈ new ↔
        (JAtom.jint c.number ∉ processed ∧
         (git_add_files env c.files rp st).1 = true ∧
         (git_commit_chunk env c.number c.file_count
           (git_add_files env c.files rp st).2).1 = true ∧
         (git_push env (git_commit_chunk env c.number c.file_count
           (git_add_files env c.files rp st).2).2).1 = true)) ∧
      (Ev.save c.number ∉ new → st'.fs = st.fs) := by
  obtain ⟨new, h1, _, h3, h4, _, _⟩ :=
    process_one_delta env processed rp sp c st st' h
  exact ⟨new, h1, h3, h4⟩

/-- Witness for C1 at a concrete run in which every git command fails. -/
theorem save_iff_full_success_witness :
    ∃ new, stFailW.events = st0.events ++ new ∧
      (Ev.save cW.number ∈ new ↔
        (JAtom.jint cW.number ∉ ([] : List JAtom) ∧
         (git_add_files envAllFail cW.files "/repo" st0).1 = true ∧
         (git_commit_chunk envAllFail cW.number cW.file_count
           (git_add_files envAllFail cW.files "/repo" st0).2).1 = true ∧
         (git_push envAllFail (git_commit_chunk envAllFail cW.number cW.file_count
           (git_add_files envAllFail cW.files "/repo" st0).2).2).1 = true)) ∧
      (Ev.save cW.number ∉ new → stFailW.fs = st0.fs) :=
  save_iff_full_success envAllFail [] "/repo" "p.json" cW st0 stFailW rfl

/-- C2: a chunk whose number is in the processed set loaded at the start of
the run is recorded as skipped and the engine advances — no staging, commit,
push or store operation happens: the state is unchanged except for the skip
log event. -/
theorem skip_already_processed (env : Env) (processed : List JAtom)
    (rp sp : String) (c : Chunk) (st : RunSt)
    (hmem : JAtom.jint c.number ∈ processed) :
    process_one env processed rp sp c st =
      .ok { st with events := st.events ++ [Ev.skip c.number] } := by
  simp [process_one, hmem]

/-- Witness for C2 at a concrete already-processed chunk. -/
theorem skip_already_processed_witness :
    process_one envAllOk [JAtom.jint 1] "/repo" "p.json" cW st0 =
      .ok { st0 with events := st0.events ++ [Ev.skip cW.number] } :=
  skip_already_processed envAllOk [JAtom.jint 1] "/repo" "p.json" cW st0
    (by decide)

/-- C4: when staging an existing file fails (the git command exits non-zero),
the rest of that chunk's staging is aborted immediately; and when staging
reports failure, the chunk is marked failed and the engine advances — commit
is never invoked for that chunk (no commit, push or save event is added). -/
theorem stage_failure_aborts_chunk :
    (∀ (env : Env) (f : String) (rest : List String) (st : RunSt),
      env.pathExists st.events f = true →
      env.opOk st.events (Ev.stage f) = false →
      gitAddGo env (f :: rest) st =
        (false, { st with events := st.events ++ [Ev.stage f] })) ∧
    (∀ (env : Env) (processed : List JAtom) (rp sp : String) (c : Chunk)
        (st : RunSt),
      JAtom.jint c.number ∉ processed →
      (git_add_files env c.files rp st).1 = false →
      process_one env processed rp sp c st =
        .ok { (git_add_files env c.files rp st).2 with
              events := (git_add_files env c.files rp st).2.events ++
                [Ev.failAdd c.number] }) := by
  constructor
  · intro env f rest st hex hok
    simp [gitAddGo, hex, hok]
  · intro env processed rp sp c st hmem h1
    simp only [process_one, if_neg hmem]
    rw [if_pos h1]

/-- Witness for C4 at a concrete failing stage. -/
theorem stage_failure_aborts_chunk_witness :
    gitAddGo envAllFail ("a.txt" :: ["b.txt"]) st0 =
      (false, { st0 with events := st0.events ++ [Ev.stage "a.txt"] }) ∧
    process_one envAllFail [] "/repo" "p.json" cW st0 =
      .ok { (git_add_files envAllFail cW.files "/repo" st0).2 with
            events := (git_add_files envAllFail cW.files "/repo" st0).2.events ++
              [Ev.failAdd cW.number] } :=
  ⟨stage_failure_aborts_chunk.1 envAllFail "a.txt" ["b.txt"] st0 rfl rfl,
   stage_failure_aborts_chunk.2 envAllFail [] "/repo" "p.json" cW st0
     (by decide) rfl⟩

/-- C5 counterexample: with an empty processed set and the same chunk listed
twice, when every git command succeeds the second occurrence is fully
re-processed within the single run — a second stage/commit/push/save sequence
and no skip event — rather than being silently skipped. -/
theorem duplicate_within_run_counterexample :
    (process_chunks envAllOk [cW, cW] "/repo" "processed_chunks.json" st0).map
      RunSt.events =
    .ok [Ev.stage "a.txt", Ev.commit "Chunk #1 - 1 files pushed successfully",
         Ev.push, Ev.save 1, Ev.success 1,
         Ev.stage "a.txt", Ev.commit "Chunk #1 - 1 files pushed successfully",
         Ev.push, Ev.save 1, Ev.success 1] := by
  decide

/-- C5 (amended): the skip decision is made solely against the set loaded at
the start of the run — a chunk occurrence is skipped iff its number is in
that initial set.  Numbers saved during the run do not cause later
occurrences in the same run to be skipped (the in-memory set is never
updated); the duplicate-skip behaviour therefore applies across runs only. -/
theorem skip_only_from_initial_set : ∀ (env : Env) (processed : List JAtom)
    (rp sp : String) (chunks : List Chunk) (st st' : RunSt),
    process_chunksGo env processed rp sp chunks st = .ok st' →
    st'.events.filter isSkipEv = st.events.filter isSkipEv ++
      (chunks.filter (fun c => decide (JAtom.jint c.number ∈ processed))).map
        (fun c => Ev.skip c.number) := by
  intro env processed rp sp chunks
  induction chunks with
  | nil =>
    intro st st' h
    cases h
    simp
  | cons c rest ih =>
    intro st st' h
    cases hp : process_one env processed rp sp c st with
    | error e =>
      simp only [process_chunksGo] at h
      rw [hp] at h
      cases h
    | ok st2 =>
      simp only [process_chunksGo] at h
      rw [hp] at h
      have hrec := ih st2 st' h
      obtain ⟨new, he, hf, _, _, _, _⟩ :=
        process_one_delta env processed rp sp c st st2 hp
      rw [hrec, he, List.filter_append, hf]
      by_cases hmem : JAtom.jint c.number ∈ processed
      · rw [if_pos hmem]
        simp [hmem, List.filter_cons]
      · rw [if_neg hmem]
        simp [hmem, List.filter_cons]

/-- Witness for the C5 amended theorem at a concrete one-chunk skipped run. -/
theorem skip_only_from_initial_set_witness :
    stSkipW.events.filter isSkipEv = st0.events.filter isSkipEv ++
      (([cW].filter (fun c => decide (JAtom.jint c.number ∈ [JAtom.jint 1]))).map
        (fun c => Ev.skip c.number)) :=
  skip_only_from_initial_set envAllOk [JAtom.jint 1] "/repo" "p.json" [cW]
    st0 stSkipW rfl

/-- C8 counterexample: a backing file whose content is valid JSON but an
array of strings — content that cannot be deserialized into a set of
integers — does not make the load raise: it silently returns a set holding a
non-integer value. -/
theorem load_silent_on_non_integer_content :
    load_processed_chunks
      (fun p => if p = "s.json" then FileContent.json (.jarr [.jstr "a"])
                else FileContent.absent) "s.json" = .ok [JAtom.jstr "a"] ∧
    isIntVal (JAtom.jstr "a") = false := by
  refine ⟨by decide, by decide⟩

/-- C8 (amended): `load_processed_chunks` returns the empty set when the
backing file does not exist; when the file exists but its content is not
decodable as JSON, or decodes to a non-iterable value, load raises, and that
error propagates out of `process_chunks` before any chunk is processed.
(Content decoding to an iterable of non-integers, however, is silently
converted to a set of non-integer values — see the counterexample.) -/
theorem load_error_behaviour :
    (∀ (fs : String → FileContent) (p : String), fs p = .absent →
      load_processed_chunks fs p = .ok []) ∧
    (∀ (fs : String → FileContent) (p : String), fs p = .invalid →
      load_processed_chunks fs p = .error .jsonDecodeError) ∧
    (∀ (fs : String → FileContent) (p : String) (a : JAtom),
      fs p = .json (.atom a) → (∀ s, a ≠ .jstr s) →
      load_processed_chunks fs p = .error .typeError) ∧
    (∀ (env : Env) (chunks : List Chunk) (rp sp : String) (st : RunSt)
        (e : PyErr),
      load_processed_chunks st.fs (resolve st.cwd sp) = .error e →
      process_chunks env chunks rp sp st = .error e) := by
  refine ⟨?_, ?_, ?_, ?_⟩
  · intro fs p h
    simp [load_processed_chunks, h]
  · intro fs p h
    simp [load_processed_chunks, h]
  · intro fs p a h hns
    cases a with
    | jnull => simp [load_processed_chunks, h, pySet]
    | jbool b => simp [load_processed_chunks, h, pySet]
    | jint n => simp [load_processed_chunks, h, pySet]
    | jstr s => exact absurd rfl (hns s)
  · intro env chunks rp sp st e h
    simp [process_chunks, h]

/-- Witness for the C8 amended theorem at concrete stores. -/
theorem load_error_behaviour_witness :
    load_processed_chunks fsEmpty "s.json" = .ok [] ∧
    load_processed_chunks (fun _ => FileContent.invalid) "s.json" =
      .error .jsonDecodeError ∧
    load_processed_chunks (fun _ => FileContent.json (.atom (.jint 5)))
      "s.json" = .error .typeError ∧
    process_chunks envAllOk [cW] "/repo" "p.json"
      { st0 with fs := fun _ => FileContent.invalid } = .error .jsonDecodeError :=
  ⟨load_error_behaviour.1 fsEmpty "s.json" rfl,
   load_error_behaviour.2.1 _ _ rfl,
   load_error_behaviour.2.2.1 _ _ (JAtom.jint 5) rfl
     (fun _ h => JAtom.noConfusion h),
   load_error_behaviour.2.2.2 envAllOk [cW] "/repo" "p.json" _ _ rfl⟩

/-- C9: the message passed to the commit operation for a chunk with number N
and declared file count C is exactly `"Chunk #N - C files pushed
successfully"`; in particular for chunk #7 with declared file count 12 it is
exactly `"Chunk #7 - 12 files pushed successfully"`. -/
theorem commit_message_format (env : Env) (processed : List JAtom)
    (rp sp : String) (c : Chunk) (st st' : RunSt)
    (h : process_one env processed rp sp c st = .ok st') :
    (∀ m, Ev.commit m ∈ st'.events →
      Ev.commit m ∈ st.events ∨ m = commit_message c.number c.file_count) ∧
    commit_message 7 12 = "Chunk #7 - 12 files pushed successfully" := by
  obtain ⟨new, he, _, _, _, hc, _⟩ :=
    process_one_delta env processed rp sp c st st' h
  constructor
  · intro m hm
    rw [he] at hm
    rcases List.mem_append.mp hm with hm1 | hm2
    · exact Or.inl hm1
    · exact Or.inr (hc m hm2)
  · rfl

/-- Witness for C9 at a concrete iteration. -/
theorem commit_message_format_witness :
    (∀ m, Ev.commit m ∈ stFailW.events →
      Ev.commit m ∈ st0.events ∨ m = commit_message cW.number cW.file_count) ∧
    commit_message 7 12 = "Chunk #7 - 12 files pushed successfully" :=
  commit_message_format envAllFail [] "/repo" "p.json" cW st0 stFailW rfl

/-- C10: `git_add_files` sets the process-wide working directory to the
repository path and never restores it; a non-skipped chunk therefore leaves
the engine in the repository directory, and any store write it performs goes
to the store path resolved against the repository directory, while the set
consulted for skipping was read from the store path resolved against the
starting directory — and for a relative store path those two resolve to the
same file exactly when the process already started in the repository
directory. -/
theorem chdir_frame_effect :
    (∀ (env : Env) (files : List String) (rp : String) (st : RunSt),
      ((git_add_files env files rp st).2).cwd = rp) ∧
    (∀ (env : Env) (processed : List JAtom) (rp sp : String) (c : Chunk)
        (st st' : RunSt), JAtom.jint c.number ∉ processed →
      process_one env processed rp sp c st = .ok st' →
      st'.cwd = rp ∧ ∀ q, q ≠ resolve rp sp → st'.fs q = st.fs q) ∧
    (∀ (w rp p : String), isAbs p = false →
      (resolve w p = resolve rp p ↔ w = rp)) := by
  refine ⟨?_, ?_, ?_⟩
  · intro env files rp st
    obtain ⟨d, hd, _⟩ := git_add_files_spec env files rp st
    rw [hd]
  · intro env processed rp sp c st st' hmem h
    obtain ⟨new, _, _, _, _, _, h6⟩ :=
      process_one_delta env processed rp sp c st st' h
    exact h6 hmem
  · intro w rp p hp
    unfold resolve
    rw [if_neg (fun q => Bool.noConfusion (hp.symm.trans q)),
        if_neg (fun q => Bool.noConfusion (hp.symm.trans q))]
    constructor
    · intro he
      have hdata : ((w ++ "/") ++ p).data = ((rp ++ "/") ++ p).data := by
        rw [he]
      rw [String.data_append, String.data_append, String.data_append,
        String.data_append] at hdata
      have h2 : w.data ++ "/".data = rp.data ++ "/".data :=
        (List.append_left_inj p.data).mp hdata
      have h3 : w.data = rp.data := (List.append_left_inj "/".data).mp h2
      cases w; cases rp; simp_all
    · intro he
      rw [he]

/-- Witness for C10 at concrete directories and a relative store path. -/
theorem chdir_frame_effect_witness :
    ((git_add_files envAllOk ["a.txt"] "/repo" st0).2).cwd = "/repo" ∧
    (stFailW.cwd = "/repo" ∧
      ∀ q, q ≠ resolve "/repo" "p.json" → stFailW.fs q = st0.fs q) ∧
    (resolve "/w" "p.json" = resolve "/repo" "p.json" ↔ "/w" = "/repo") :=
  ⟨chdir_frame_effect.1 envAllOk ["a.txt"] "/repo" st0,
   chdir_frame_effect.2.1 envAllFail [] "/repo" "p.json" cW st0 stFailW
     (by decide) rfl,
   chdir_frame_effect.2.2 "/w" "/repo" "p.json" rfl⟩

end ChunkyProcessor
